import Mathlib

/-!
Verification development for `skills/download-gdoc/scripts/download_gdoc.py`.

Strings are modelled as `List Char` (Python `str`).  Python's string
operations used by the script (`in`, `split`, `strip`, `lower`) are given
executable models, and the single regular expression `_IMAGE_PATTERNS`
together with `re.sub("", ...)` is given a direct deterministic model
(each alternative of the pattern is a first-match scan whose character
classes are exactly the complements of their terminators, so the Python
backtracking engine behaves deterministically on it).
-/

set_option maxRecDepth 8000

namespace GdocDl

/-- Model of Python list/str prefix test: `beginsWith pat s` holds iff `s`
starts with `pat`. -/
def beginsWith : List Char → List Char → Bool
  | [], _ => true
  | _ :: _, [] => false
  | a :: as, b :: bs => (a == b) && beginsWith as bs

/-- Model of Python's substring test `sub in s` (here `hasSubstr s sub`). -/
def hasSubstr : List Char → List Char → Bool
  | [], sub => sub.isEmpty
  | c :: t, sub => beginsWith sub (c :: t) || hasSubstr t sub

/-- Model of Python `str.lower()` (ASCII case folding). -/
def pyLower (cs : List Char) : List Char := cs.map Char.toLower

/-- Model of Python's whitespace set, as tested by `str.strip()` and matched
by the regex class `\s` (Unicode whitespace). -/
def isPySpace (c : Char) : Bool :=
  c == ' ' || c == '\t' || c == '\n' || c == '\r' || c == '\x0b' || c == '\x0c' ||
  c == '\x1c' || c == '\x1d' || c == '\x1e' || c == '\x1f' || c == '\x85' || c == '\xa0' ||
  c == ' ' || (0x2000 ≤ c.toNat && c.toNat ≤ 0x200a) ||
  c == ' ' || c == ' ' || c == ' ' || c == ' ' || c == '　'

/-- Model of Python `str.strip()` with no arguments: drop whitespace from
both ends. -/
def pyStrip (cs : List Char) : List Char :=
  ((cs.dropWhile isPySpace).reverse.dropWhile isPySpace).reverse

/-- Fuelled model of Python `str.split(sep)` for a non-empty separator:
split on every leftmost non-overlapping occurrence of `sep`.  The fuel is
one unit per scanned character; `pySplit` supplies `cs.length`, which is
always sufficient because every separator occurrence consumes at least one
character.  (Python raises `ValueError` on an empty separator; the script
only splits on `"/d/"` and `"/"`.) -/
def pySplitGo (sep : List Char) : Nat → List Char → List (List Char)
  | _, [] => [[]]
  | 0, cs => [cs]
  | fuel + 1, c :: rest =>
    if beginsWith sep (c :: rest) then
      [] :: pySplitGo sep fuel (List.drop sep.length (c :: rest))
    else
      match pySplitGo sep fuel rest with
      | [] => [[c]]
      | h :: t => (c :: h) :: t

/-- Model of Python `cs.split(sep)` for non-empty `sep`. -/
def pySplit (sep cs : List Char) : List (List Char) := pySplitGo sep cs.length cs

/-- The literal `"docs.google.com"` from `extract_doc_id`. -/
def dgcChars : List Char := "docs.google.com".toList

/-- The literal `"/d/"` from `extract_doc_id`. -/
def dTok : List Char := "/d/".toList

/-- The literal `"/"` from `extract_doc_id`. -/
def slashTok : List Char := "/".toList

/-- The part of a canonical document URL before its first `"/d/"`
occurrence (used to analyse `extract_doc_id` on well-formed URLs). -/
def urlHead : List Char := "https://docs.google.com/document".toList

/-- Model of `extract_doc_id` (download_gdoc.py lines 60-66):
if the input contains `"docs.google.com"`, split on `"/d/"`; when that
yields more than one part, return part 1 split on `"/"` at index 0;
otherwise return the input unchanged.  (Python `parts[1]` and `[0]` are
total here because the branch guarantees more than one part and `split`
never returns an empty list; `getD`/`headD` coincide with them.) -/
def extract_doc_id (s : List Char) : List Char :=
  if hasSubstr s dgcChars then
    if (pySplit dTok s).length > 1 then
      (pySplit slashTok ((pySplit dTok s).getD 1 [])).headD []
    else s
  else s

/-! Model of the regular expression `_IMAGE_PATTERNS` (lines 27-31) and of
`_IMAGE_PATTERNS.sub("", content)`.  The pattern is an alternation of three
branches tried in order at each position; inside each branch every
character class is the complement of the character that must follow it, so
the greedy scan is deterministic: the class matches exactly up to the first
occurrence of its terminator. -/

/-- First alternative `!\[[^\]]*\]\([^\)]+\)\n*` (inline image
`![alt](url)` followed by any newlines).  Returns the rest of the string
after the match, or `none`. -/
def matchInlineImage : List Char → Option (List Char)
  | '!' :: '[' :: rest =>
    match rest.dropWhile (fun c => c != ']') with
    | ']' :: '(' :: rest2 =>
      if (rest2.takeWhile (fun c => c != ')')).isEmpty then none
      else
        match rest2.dropWhile (fun c => c != ')') with
        | ')' :: rest4 => some (rest4.dropWhile (fun c => c == '\n'))
        | _ => none
    | _ => none
  | _ => none

/-- Second alternative `!\[[^\]]*\]\[[^\]]+\]\n*` (reference-style image
`![alt][ref]` followed by any newlines). -/
def matchRefImage : List Char → Option (List Char)
  | '!' :: '[' :: rest =>
    match rest.dropWhile (fun c => c != ']') with
    | ']' :: '[' :: rest2 =>
      if (rest2.takeWhile (fun c => c != ']')).isEmpty then none
      else
        match rest2.dropWhile (fun c => c != ']') with
        | ']' :: rest4 => some (rest4.dropWhile (fun c => c == '\n'))
        | _ => none
    | _ => none
  | _ => none

/-- Third alternative `\[[^\]]+\]:\s*<[^>]+>\n*` (reference definition
`[ref]: <url>` followed by any newlines). -/
def matchRefDef : List Char → Option (List Char)
  | '[' :: rest =>
    if (rest.takeWhile (fun c => c != ']')).isEmpty then none
    else
      match rest.dropWhile (fun c => c != ']') with
      | ']' :: ':' :: rest2 =>
        match rest2.dropWhile isPySpace with
        | '<' :: rest3 =>
          if (rest3.takeWhile (fun c => c != '>')).isEmpty then none
          else
            match rest3.dropWhile (fun c => c != '>') with
            | '>' :: rest5 => some (rest5.dropWhile (fun c => c == '\n'))
            | _ => none
        | _ => none
      | _ => none
  | _ => none

/-- One attempt of `_IMAGE_PATTERNS` at the current position: the three
alternatives in the order the pattern lists them. -/
def matchImage (cs : List Char) : Option (List Char) :=
  match matchInlineImage cs with
  | some r => some r
  | none =>
    match matchRefImage cs with
    | some r => some r
    | none => matchRefDef cs

/-- Fuelled scan of `re.sub` with replacement `""`: at each position, if the
pattern matches, drop the matched text and continue after it, otherwise
keep the character and move on.  One unit of fuel per step; every match
consumes at least one character, so `cs.length` fuel is always enough. -/
def stripGo : Nat → List Char → List Char
  | 0, cs => cs
  | _, [] => []
  | fuel + 1, c :: rest =>
    match matchImage (c :: rest) with
    | some rest2 => stripGo fuel rest2
    | none => c :: stripGo fuel rest

/-- Model of `_IMAGE_PATTERNS.sub("", cs)`. -/
def imagePatternsSub (cs : List Char) : List Char := stripGo cs.length cs

/-- True when no position of `cs` matches `_IMAGE_PATTERNS` (so
`imagePatternsSub` leaves `cs` unchanged). -/
def noImageMatch : List Char → Bool
  | [] => true
  | c :: rest => (matchImage (c :: rest)).isNone && noImageMatch rest

/-! Model of the script's error handling (`_is_auth_error`, the nested
`_call` retry wrapper) and of `download_doc` itself.  Exceptions are
modelled by `PyErr`; remote calls are modelled by an attempt oracle
`Nat → Except PyErr α` giving the outcome of the n-th invocation of the
wrapped function; `sys.exit` / an uncaught exception are the `exited` /
`raised` outcomes; writes to `stderr` and to the filesystem are recorded
as explicit event lists. -/

/-- Exceptions the script classifies: `googleapiclient` `HttpError`
(carrying `resp.status`), `google.auth` `GoogleAuthError`, and any other
exception.  The carried string models `str(exc)`. -/
inductive PyErr : Type
  | httpError (status : Nat) (msg : List Char)
  | googleAuthError (msg : List Char)
  | otherError (msg : List Char)
deriving DecidableEq

/-- Model of Python `str(exc)` for the three exception shapes. -/
def errStr : PyErr → List Char
  | .httpError _ m => m
  | .googleAuthError m => m
  | .otherError m => m

/-- Model of `_is_auth_error` (lines 78-85): `HttpError` with status 401 or
403, any `GoogleAuthError`, or a message whose lower-casing contains
`"invalid_grant"` or `"expired"`. -/
def is_auth_error (e : PyErr) : Bool :=
  (match e with
   | .httpError s _ => s == 401 || s == 403
   | _ => false) ||
  (match e with
   | .googleAuthError _ => true
   | _ => false) ||
  (hasSubstr (pyLower (errStr e)) "invalid_grant".toList ||
   hasSubstr (pyLower (errStr e)) "expired".toList)

/-- True when the exception is an `HttpError` with `resp.status == 404`
(the special-cased branch of `_call`). -/
def isHttp404 : PyErr → Bool
  | .httpError s _ => s == 404
  | _ => false

/-- Outcome of a piece of the script: normal value, `sys.exit(code)`, or an
uncaught exception propagating (which makes the Python process exit
non-zero). -/
inductive Outcome (α : Type) : Type
  | ok (a : α)
  | exited (code : Nat)
  | raised (e : PyErr)
deriving DecidableEq

/-- A fatal outcome: the process ends with a non-zero exit code (either an
explicit `sys.exit` with non-zero code or an uncaught exception). -/
def isFatal {α : Type} : Outcome α → Bool
  | .ok _ => false
  | .exited c => c != 0
  | .raised _ => true

/-- Events printed to stderr by `_call` (the texts themselves are carried
in the source; here each print site is one constructor).
`notFoundGuidance` is the lines 108-118 block: it names the document id and
distinguishes the two likely causes (doc not shared directly with the
authenticated account / quota project without Workspace access). -/
inductive Ev : Type
  | notFoundGuidance (doc_id : List Char) (e : PyErr)
  | authErrorNote (e : PyErr)
  | reauth
  | gcloudLoginFailed
deriving DecidableEq

/-- Result of one `_call` invocation: its outcome, how many times the
wrapped API function was invoked, how many times `run_gcloud_login` ran,
and the stderr events in order. -/
structure CallOut (α : Type) where
  res : Outcome α
  calls : Nat
  logins : Nat
  events : List Ev
deriving DecidableEq

/-- Model of the nested `_call` closure (lines 101-126): run the call; on
`HttpError` 404 print the guidance block and `sys.exit(1)`; on a non-auth
error re-raise; otherwise re-run the gcloud login (fatal `exit(1)` if the
login subprocess fails), rebuild the service and retry the call exactly
once, any failure of the retry propagating uncaught. -/
def pyCall {α : Type} (doc_id : List Char) (attempts : Nat → Except PyErr α)
    (loginOk : Bool) : CallOut α :=
  match attempts 0 with
  | .ok a => ⟨.ok a, 1, 0, []⟩
  | .error first_err =>
    if isHttp404 first_err then
      ⟨.exited 1, 1, 0, [.notFoundGuidance doc_id first_err]⟩
    else if is_auth_error first_err = false then
      ⟨.raised first_err, 1, 0, []⟩
    else if loginOk = false then
      ⟨.exited 1, 1, 1, [.authErrorNote first_err, .reauth, .gcloudLoginFailed]⟩
    else
      match attempts 1 with
      | .ok a => ⟨.ok a, 2, 1, [.authErrorNote first_err, .reauth]⟩
      | .error e2 => ⟨.raised e2, 2, 1, [.authErrorNote first_err, .reauth]⟩

/-- The cache directory `~/.claude/gdocs` (`Path.home()` abstracted as
`~`). -/
def CACHE_DIR : List Char := "~/.claude/gdocs".toList

/-- The cached Markdown body path `CACHE_DIR / (doc_id + ".md")`. -/
def md_path (doc_id : List Char) : List Char :=
  CACHE_DIR ++ '/' :: (doc_id ++ ".md".toList)

/-- The sidecar path `CACHE_DIR / (doc_id + ".meta.json")`. -/
def meta_path (doc_id : List Char) : List Char :=
  CACHE_DIR ++ '/' :: (doc_id ++ ".meta.json".toList)

/-- The canonical viewing URL written into the sidecar (line 163). -/
def doc_url (doc_id : List Char) : List Char :=
  "https://docs.google.com/document/d/".toList ++ doc_id ++ "/edit".toList

/-- The sidecar record (the JSON object written at lines 158-167).
`modifiedTime` is optional to model `meta.get("modifiedTime")` returning
`None` on a sidecar lacking the key; every sidecar this program writes has
all three fields. -/
structure Meta where
  title : List Char
  modifiedTime : Option (List Char)
  url : List Char
deriving DecidableEq

/-- The slice of the local filesystem the script touches for one document:
the Markdown body file, the sidecar, and whether the cache directory
exists. -/
structure FS where
  mdFile : Option (List Char)
  metaFile : Option Meta
  cacheDirExists : Bool
deriving DecidableEq

/-- Model of `get_cached_modified_time` (lines 69-75): `None` when the
sidecar file does not exist, otherwise its `modifiedTime` field (or `None`
when absent). -/
def get_cached_modified_time (fs : FS) : Option (List Char) :=
  match fs.metaFile with
  | some m => m.modifiedTime
  | none => none

/-- The metadata returned by `files().get(fileId, fields="name,modifiedTime")`. -/
structure FileMeta where
  name : List Char
  modifiedTime : List Char
deriving DecidableEq

/-- Environment of one `download_doc` run: whether ambient ADC credentials
load without a login (`adcOk`), whether the interactive gcloud login exits
zero (`loginOk`), and the outcome oracles for the two remote calls
(metadata fetch and Markdown export; the export value models the response
bytes decoded as UTF-8, before the `.strip()`). -/
structure Env where
  adcOk : Bool
  loginOk : Bool
  metaAttempts : Nat → Except PyErr FileMeta
  exportAttempts : Nat → Except PyErr (List Char)

/-- Filesystem write events, in program order. -/
inductive WriteEv : Type
  | mkdirCache
  | writeMd (content : List Char)
  | writeMeta (m : Meta)
deriving DecidableEq

/-- Result of one `download_doc` run: outcome (the returned `md_path` on
success), the final filesystem slice, the number of invocations of the
export call, and the filesystem writes in order. -/
structure DlResult where
  outcome : Outcome (List Char)
  fs : FS
  exportCalls : Nat
  writes : List WriteEv
deriving DecidableEq

/-- Model of `download_doc` (lines 88-170).  `authenticate()` fails (and
the process exits 1) only when neither ambient credentials nor the
interactive login are available.  Then: fetch metadata through the retry
wrapper; if `force` is false, the cached body exists and the sidecar's
stored timestamp equals the fresh remote one, return the cached path with
no export and no writes; otherwise export through the wrapper, strip the
response (`.strip()` inside the export lambda), remove image patterns and
strip again, create the cache directory, write the body, then write the
sidecar recording the remote timestamp. -/
def download_doc (env : Env) (fs : FS) (doc_id_or_url : List Char) (force : Bool) :
    DlResult :=
  let doc_id := extract_doc_id doc_id_or_url
  if env.adcOk = false ∧ env.loginOk = false then
    ⟨.exited 1, fs, 0, []⟩
  else
    match (pyCall doc_id env.metaAttempts env.loginOk).res with
    | .exited c => ⟨.exited c, fs, 0, []⟩
    | .raised e => ⟨.raised e, fs, 0, []⟩
    | .ok fm =>
      if force = false ∧ fs.mdFile.isSome = true ∧
          get_cached_modified_time fs = some fm.modifiedTime then
        ⟨.ok (md_path doc_id), fs, 0, []⟩
      else
        let ecall := pyCall doc_id env.exportAttempts env.loginOk
        match ecall.res with
        | .exited c => ⟨.exited c, fs, ecall.calls, []⟩
        | .raised e => ⟨.raised e, fs, ecall.calls, []⟩
        | .ok raw =>
          let content := pyStrip (imagePatternsSub (pyStrip raw))
          let meta : Meta := ⟨fm.name, some fm.modifiedTime, doc_url doc_id⟩
          ⟨.ok (md_path doc_id), ⟨some content, some meta, true⟩, ecall.calls,
            [.mkdirCache, .writeMd content, .writeMeta meta]⟩

/-! Helper lemmas. -/

theorem beginsWith_self_append (a y : List Char) : beginsWith a (a ++ y) = true := by
  induction a with
  | nil => rfl
  | cons c as ih => simp [beginsWith, ih]

theorem beginsWith_append_of_le (a b y : List Char) (h : a.length ≤ b.length) :
    beginsWith a (b ++ y) = beginsWith a b := by
  induction a generalizing b with
  | nil => rfl
  | cons c as ih =>
    cases b with
    | nil => simp at h
    | cons d bs =>
      simp only [List.cons_append, beginsWith, List.append_eq]
      rw [ih bs (by simpa using h)]

theorem hasSubstr_nil_right (s : List Char) : hasSubstr s [] = true := by
  cases s <;> rfl

theorem hasSubstr_append (a sub b : List Char) :
    hasSubstr (a ++ (sub ++ b)) sub = true := by
  induction a with
  | nil =>
    cases sub with
    | nil => simpa using hasSubstr_nil_right b
    | cons c t =>
      have hb := beginsWith_self_append (c :: t) b
      simp only [List.cons_append] at hb
      simp [hasSubstr, hb]
  | cons c t ih => simp [hasSubstr, ih]

theorem hasSubstr_eq_false_drop (s sub : List Char) (h : hasSubstr s sub = false) :
    ∀ i, beginsWith sub (List.drop i s) = false := by
  induction s with
  | nil =>
    intro i
    cases sub with
    | nil => simp [hasSubstr] at h
    | cons c t => simp [List.drop_nil, beginsWith]
  | cons c t ih =>
    simp only [hasSubstr, Bool.or_eq_false_iff] at h
    intro i
    cases i with
    | zero => exact h.1
    | succ j => simpa [List.drop_succ_cons] using ih h.2 j

theorem stripGo_of_noImageMatch (fuel : Nat) (cs : List Char)
    (h : noImageMatch cs = true) : stripGo fuel cs = cs := by
  induction fuel generalizing cs with
  | zero => cases cs <;> rfl
  | succ f ih =>
    cases cs with
    | nil => rfl
    | cons c rest =>
      simp only [noImageMatch, Bool.and_eq_true, Option.isNone_iff_eq_none] at h
      simp only [stripGo, h.1]
      rw [ih rest h.2]

theorem pyCall_ok {α : Type} (doc_id : List Char) (att : Nat → Except PyErr α)
    (lo : Bool) (a : α) (h : att 0 = .ok a) :
    pyCall doc_id att lo = ⟨.ok a, 1, 0, []⟩ := by
  simp [pyCall, h]

theorem pyCall_calls_pos {α : Type} (doc_id : List Char) (att : Nat → Except PyErr α)
    (lo : Bool) : 1 ≤ (pyCall doc_id att lo).calls := by
  unfold pyCall
  cases att 0 with
  | ok a => simp
  | error e =>
    by_cases h4 : isHttp404 e = true
    · simp [h4]
    · by_cases ha : is_auth_error e = false
      · simp [h4, ha]
      · by_cases hl : lo = false
        · simp [h4, ha, hl]
        · cases att 1 <;> simp [h4, ha, hl]

theorem pySplitGo_ne_nil (sep : List Char) (fuel : Nat) (cs : List Char) :
    pySplitGo sep fuel cs ≠ [] := by
  cases fuel with
  | zero => cases cs <;> simp [pySplitGo]
  | succ f =>
    cases cs with
    | nil => simp [pySplitGo]
    | cons c rest =>
      simp only [pySplitGo]
      split
      · simp
      · split <;> simp

theorem pySplit_ne_nil (sep cs : List Char) : pySplit sep cs ≠ [] :=
  pySplitGo_ne_nil sep cs.length cs

theorem pySplitGo_fuel (sep : List Char) (hsep : sep ≠ []) :
    ∀ f1 : Nat, ∀ cs : List Char, ∀ f2 : Nat, cs.length ≤ f1 → cs.length ≤ f2 →
      pySplitGo sep f1 cs = pySplitGo sep f2 cs := by
  intro f1
  induction f1 with
  | zero =>
    intro cs f2 h1 h2
    have hnil : cs = [] := List.eq_nil_of_length_eq_zero (Nat.le_zero.mp h1)
    subst hnil
    cases f2 <;> rfl
  | succ f ih =>
    intro cs f2 h1 h2
    cases cs with
    | nil => cases f2 <;> rfl
    | cons c rest =>
      cases f2 with
      | zero => simp at h2
      | succ g =>
        have hsl : 1 ≤ sep.length := List.length_pos.mpr hsep
        simp only [pySplitGo]
        by_cases hb : beginsWith sep (c :: rest) = true
        · rw [if_pos hb, if_pos hb]
          have hdl : (List.drop sep.length (c :: rest)).length =
              (c :: rest).length - sep.length := List.length_drop _ _
          have hf : (List.drop sep.length (c :: rest)).length ≤ f := by
            simp only [List.length_cons] at h1 hdl
            omega
          have hg : (List.drop sep.length (c :: rest)).length ≤ g := by
            simp only [List.length_cons] at h2 hdl
            omega
          rw [ih _ g hf hg]
        · rw [if_neg hb, if_neg hb]
          have hf : rest.length ≤ f := by
            simp only [List.length_cons] at h1
            omega
          have hg : rest.length ≤ g := by
            simp only [List.length_cons] at h2
            omega
          rw [ih rest g hf hg]

theorem pySplitGo_no_match (sep : List Char) :
    ∀ cs : List Char, ∀ fuel : Nat, cs.length ≤ fuel →
      (∀ i, i < cs.length → beginsWith sep (List.drop i cs) = false) →
      pySplitGo sep fuel cs = [cs] := by
  intro cs
  induction cs with
  | nil =>
    intro fuel hf hn
    cases fuel <;> rfl
  | cons c rest ih =>
    intro fuel hf hn
    cases fuel with
    | zero => simp at hf
    | succ f =>
      have hb : beginsWith sep (c :: rest) = false := by
        simpa using hn 0 (by simp)
      have hrest : pySplitGo sep f rest = [rest] := by
        refine ih f ?_ ?_
        · simp only [List.length_cons] at hf
          omega
        · intro i hi
          simpa [List.drop_succ_cons] using hn (i + 1) (by simp only [List.length_cons]; omega)
      simp [pySplitGo, hb, hrest]

theorem pySplitGo_append (sep : List Char) (hsep : sep ≠ []) :
    ∀ x : List Char, ∀ fuel : Nat, ∀ y : List Char,
      (x ++ (sep ++ y)).length ≤ fuel →
      (∀ i, i < x.length → beginsWith sep (List.drop i x ++ sep) = false) →
      pySplitGo sep fuel (x ++ (sep ++ y)) =
        x :: pySplitGo sep (fuel - x.length - 1) y := by
  intro x
  induction x with
  | nil =>
    intro fuel y hf hx
    cases sep with
    | nil => exact absurd rfl hsep
    | cons s ss =>
      cases fuel with
      | zero => simp at hf
      | succ f =>
        have hb := beginsWith_self_append (s :: ss) y
        have hdrop : List.drop (s :: ss).length ((s :: ss) ++ y) = y := List.drop_left _ _
        simp only [List.nil_append, List.cons_append] at hb hdrop ⊢
        simp only [pySplitGo, hb, if_true]
        rw [hdrop]
        simp
  | cons c x' ihx =>
    intro fuel y hf hx
    cases fuel with
    | zero => simp at hf
    | succ f =>
      have hb0 : beginsWith sep ((c :: x') ++ sep) = false := by
        simpa using hx 0 (by simp)
      have hble : sep.length ≤ ((c :: x') ++ sep).length := by
        simp only [List.cons_append, List.length_cons, List.length_append]
        omega
      have hb : beginsWith sep ((c :: x') ++ (sep ++ y)) = false := by
        have h2 := beginsWith_append_of_le sep ((c :: x') ++ sep) y hble
        rw [hb0] at h2
        rw [← List.append_assoc]
        exact h2
      simp only [List.cons_append] at hb
      have hf2 : (x' ++ (sep ++ y)).length ≤ f := by
        simp only [List.cons_append, List.length_cons] at hf
        omega
      have hx2 : ∀ i, i < x'.length → beginsWith sep (List.drop i x' ++ sep) = false := by
        intro i hi
        simpa [List.drop_succ_cons] using hx (i + 1) (by simp only [List.length_cons]; omega)
      simp only [List.cons_append, pySplitGo, List.append_eq, hb, Bool.false_eq_true,
        if_false]
      rw [ihx f y hf2 hx2]
      simp [Nat.succ_sub_succ]

theorem pySplitGo_head_cons (sep : List Char) :
    ∀ x t : List Char, ∀ fuel : Nat,
      (x ++ t).length ≤ fuel →
      (∀ i, i < x.length → beginsWith sep (List.drop i (x ++ t)) = false) →
      pySplitGo sep fuel (x ++ t) =
        (x ++ (pySplitGo sep (fuel - x.length) t).headD []) ::
          (pySplitGo sep (fuel - x.length) t).tail := by
  intro x
  induction x with
  | nil =>
    intro t fuel hf hx
    simp only [List.nil_append, List.length_nil, Nat.sub_zero]
    have hne := pySplitGo_ne_nil sep fuel t
    cases hP : pySplitGo sep fuel t with
    | nil => exact absurd hP hne
    | cons h tl => simp
  | cons c x' ihx =>
    intro t fuel hf hx
    cases fuel with
    | zero => simp at hf
    | succ f =>
      have hb : beginsWith sep (c :: (x' ++ t)) = false := by
        simpa using hx 0 (by simp)
      have hf2 : (x' ++ t).length ≤ f := by
        simp only [List.cons_append, List.length_cons] at hf
        omega
      have hx2 : ∀ i, i < x'.length → beginsWith sep (List.drop i (x' ++ t)) = false := by
        intro i hi
        simpa [List.drop_succ_cons] using hx (i + 1) (by simp only [List.length_cons]; omega)
      simp only [List.cons_append, pySplitGo, List.append_eq, hb, Bool.false_eq_true,
        if_false]
      rw [ihx t f hf2 hx2]
      simp [Nat.succ_sub_succ]

theorem pySplitGo_head_start (sep : List Char) (fuel : Nat) (c : Char) (rest : List Char) :
    (pySplitGo sep (fuel + 1) (c :: rest)).headD [] = [] ∨
    ∃ l, (pySplitGo sep (fuel + 1) (c :: rest)).headD [] = c :: l := by
  simp only [pySplitGo]
  split
  · left
    rfl
  · split
    · right
      exact ⟨[], rfl⟩
    · right
      exact ⟨_, rfl⟩

theorem drop_append_cons (l t : List Char) :
    ∀ i, i < l.length → ∃ c l2, c ∈ l ∧ List.drop i (l ++ t) = c :: l2 := by
  induction l with
  | nil =>
    intro i hi
    simp at hi
  | cons a l' ih =>
    intro i hi
    cases i with
    | zero => exact ⟨a, l' ++ t, by simp, by simp⟩
    | succ j =>
      obtain ⟨c, l2, hc, hd⟩ := ih j (by simp only [List.length_cons] at hi; omega)
      exact ⟨c, l2, by simp [hc], by simpa [List.drop_succ_cons] using hd⟩

theorem beginsWith_slash_drop (idc t : List Char) (hid : '/' ∉ idc) (s2 : List Char) :
    ∀ i, i < idc.length → beginsWith ('/' :: s2) (List.drop i (idc ++ t)) = false := by
  intro i hi
  obtain ⟨c, l2, hc, hd⟩ := drop_append_cons idc t i hi
  rw [hd]
  have hcne : ('/' : Char) ≠ c := fun h => hid (h ▸ hc)
  simp [beginsWith, hcne]

theorem beginsWith_slash_drop_append (idc : List Char) (hid : '/' ∉ idc)
    (s2 t : List Char) :
    ∀ i, i < idc.length → beginsWith ('/' :: s2) (List.drop i idc ++ t) = false := by
  intro i hi
  have h1 := beginsWith_slash_drop idc t hid s2 i hi
  rwa [List.drop_append_of_le_length (Nat.le_of_lt hi)] at h1

/-! Claim theorems. -/

/-- C4 counterexample: the image-stripping transformation is not
idempotent.  On `"![a]![c](d)(b)"` one application removes only the inner
inline image `![c](d)`, producing `"![a](b)"`, and a second application
removes that newly formed inline image as well. -/
theorem C4_counterexample :
    imagePatternsSub (imagePatternsSub "![a]![c](d)(b)".toList) ≠
      imagePatternsSub "![a]![c](d)(b)".toList := by decide

/-- C4 (amended): the image-stripping transformation is idempotent on
every input whose stripped output contains no further match of the image
patterns; in general deleting a match can make its neighbours form a new
match, so a second application can remove more text. -/
theorem C4_strip_idempotent_on_matchfree (s : List Char)
    (h : noImageMatch (imagePatternsSub s) = true) :
    imagePatternsSub (imagePatternsSub s) = imagePatternsSub s :=
  stripGo_of_noImageMatch _ _ h

/-- Witness for C4 (amended) at the concrete input `"hello world"`. -/
theorem C4_strip_idempotent_on_matchfree_witness :
    noImageMatch (imagePatternsSub "hello world".toList) = true ∧
    imagePatternsSub (imagePatternsSub "hello world".toList) =
      imagePatternsSub "hello world".toList :=
  ⟨by decide, C4_strip_idempotent_on_matchfree _ (by decide)⟩

/-- C2 counterexample: an API call failing with a forbidden (HTTP 403)
error IS re-authenticated (one gcloud login) and retried (two invocations
of the wrapped call), contradicting the claim that permission errors are
surfaced immediately with no re-authentication attempt. -/
theorem C2_counterexample :
    (pyCall "doc1".toList
      (fun _ => (.error (.httpError 403 "forbidden".toList) : Except PyErr Nat))
      true).logins = 1 ∧
    (pyCall "doc1".toList
      (fun _ => (.error (.httpError 403 "forbidden".toList) : Except PyErr Nat))
      true).calls = 2 := by
  constructor <;> rfl

/-- C2 (amended): a not-found (HTTP 404) API failure is not retried: the
wrapped call is invoked exactly once, no re-authentication happens, the
guidance block distinguishing the two likely causes is printed, and the
process exits with code 1.  A forbidden (HTTP 403) failure is instead
classified as an authentication error and gets one re-authentication and
retry. -/
theorem C2_notfound_fatal_no_retry {α : Type} :
    (∀ (doc_id : List Char) (att : Nat → Except PyErr α) (lo : Bool) (e : PyErr),
      att 0 = .error e → isHttp404 e = true →
      pyCall doc_id att lo = ⟨.exited 1, 1, 0, [.notFoundGuidance doc_id e]⟩) ∧
    (∀ (doc_id : List Char) (att : Nat → Except PyErr α) (msg : List Char),
      att 0 = .error (.httpError 403 msg) →
      (pyCall doc_id att true).calls = 2 ∧ (pyCall doc_id att true).logins = 1) := by
  constructor
  · intro doc_id att lo e h0 h404
    simp [pyCall, h0, h404]
  · intro doc_id att msg h0
    have hauth : is_auth_error (.httpError 403 msg) = true := by
      simp [is_auth_error]
    have h404 : isHttp404 (.httpError 403 msg) = false := by
      simp [isHttp404]
    simp only [pyCall, h0, h404, hauth]
    cases att 1 <;> simp

/-- Witness for C2 (amended): concrete 404 failure, exits 1 after one
invocation with the guidance printed, and concrete 403 failure retried. -/
theorem C2_notfound_fatal_no_retry_witness :
    pyCall "d1".toList
      (fun _ => (.error (.httpError 404 "notfound".toList) : Except PyErr Nat)) true =
      ⟨.exited 1, 1, 0, [.notFoundGuidance "d1".toList (.httpError 404 "notfound".toList)]⟩ ∧
    (pyCall "d1".toList
      (fun _ => (.error (.httpError 403 "no".toList) : Except PyErr Nat)) true).calls = 2 :=
  ⟨C2_notfound_fatal_no_retry.1 "d1".toList _ true _ rfl rfl,
   (C2_notfound_fatal_no_retry.2 "d1".toList _ "no".toList rfl).1⟩

/-- C7: an API call failing with an authentication/authorization error
(not the special-cased 404) re-runs the interactive login once and retries
the call exactly once (two invocations in total, one login); if the retry
fails again the error propagates uncaught — a fatal, non-zero exit — with
no further retry. -/
theorem C7_auth_retry_once {α : Type} (doc_id : List Char)
    (att : Nat → Except PyErr α) (e : PyErr)
    (h0 : att 0 = .error e) (h404 : isHttp404 e = false)
    (hauth : is_auth_error e = true) :
    (pyCall doc_id att true).logins = 1 ∧
    (pyCall doc_id att true).calls = 2 ∧
    (∀ a, att 1 = .ok a → (pyCall doc_id att true).res = .ok a) ∧
    (∀ e2, att 1 = .error e2 →
      (pyCall doc_id att true).res = .raised e2 ∧
      isFatal (pyCall doc_id att true).res = true) := by
  simp only [pyCall, h0, h404, hauth]
  cases h1 : att 1 <;> simp [isFatal]

/-- Witness for C7 at a concrete environment where both attempts fail with
a `GoogleAuthError`: one login, two invocations, and the second failure
propagates. -/
theorem C7_auth_retry_once_witness :
    (pyCall "d".toList
      (fun _ => (.error (.googleAuthError "tok".toList) : Except PyErr Nat)) true).logins = 1 ∧
    (pyCall "d".toList
      (fun _ => (.error (.googleAuthError "tok".toList) : Except PyErr Nat)) true).calls = 2 ∧
    (pyCall "d".toList
      (fun _ => (.error (.googleAuthError "tok".toList) : Except PyErr Nat)) true).res =
      .raised (.googleAuthError "tok".toList) := by
  have h := C7_auth_retry_once "d".toList
    (fun _ => (.error (.googleAuthError "tok".toList) : Except PyErr Nat))
    (.googleAuthError "tok".toList) rfl (by decide) (by decide)
  exact ⟨h.1, h.2.1, (h.2.2.2 _ rfl).1⟩

/-- C1: cache hit.  When ambient credentials load, the metadata call
succeeds with remote timestamp equal to the sidecar's stored one and the
cached body file exists, `download_doc` with `force = false` performs zero
export calls, returns the path of the cached file, and leaves the
filesystem (including the cached content) unchanged. -/
theorem C1_cache_hit (env : Env) (fs : FS) (x : List Char) (fm : FileMeta)
    (body : List Char)
    (hadc : env.adcOk = true)
    (hmeta : env.metaAttempts 0 = .ok fm)
    (hmd : fs.mdFile = some body)
    (hts : get_cached_modified_time fs = some fm.modifiedTime) :
    (download_doc env fs x false).exportCalls = 0 ∧
    (download_doc env fs x false).outcome = .ok (md_path (extract_doc_id x)) ∧
    (download_doc env fs x false).fs = fs := by
  have hm := pyCall_ok (extract_doc_id x) env.metaAttempts env.loginOk _ hmeta
  simp [download_doc, hm, hadc, hmd, hts]

/-- Witness for C1 at a concrete cached state matching the remote. -/
theorem C1_cache_hit_witness :
    (download_doc
      ⟨true, true, fun _ => .ok ⟨"Doc".toList, "t1".toList⟩, fun _ => .ok "body".toList⟩
      ⟨some "cached".toList, some ⟨"Doc".toList, some "t1".toList, "u".toList⟩, true⟩
      "abc".toList false).exportCalls = 0 ∧
    (download_doc
      ⟨true, true, fun _ => .ok ⟨"Doc".toList, "t1".toList⟩, fun _ => .ok "body".toList⟩
      ⟨some "cached".toList, some ⟨"Doc".toList, some "t1".toList, "u".toList⟩, true⟩
      "abc".toList false).fs =
      ⟨some "cached".toList, some ⟨"Doc".toList, some "t1".toList, "u".toList⟩, true⟩ := by
  have h := C1_cache_hit
    ⟨true, true, fun _ => .ok ⟨"Doc".toList, "t1".toList⟩, fun _ => .ok "body".toList⟩
    ⟨some "cached".toList, some ⟨"Doc".toList, some "t1".toList, "u".toList⟩, true⟩
    "abc".toList ⟨"Doc".toList, "t1".toList⟩ "cached".toList rfl rfl rfl rfl
  exact ⟨h.1, h.2.2⟩

/-- C10: on a cache hit, `download_doc` performs no filesystem writes at
all: the write-event trace is empty and the filesystem slice (body file,
sidecar, cache-directory existence) is exactly the input one. -/
theorem C10_cache_hit_no_writes (env : Env) (fs : FS) (x : List Char) (fm : FileMeta)
    (body : List Char)
    (hadc : env.adcOk = true)
    (hmeta : env.metaAttempts 0 = .ok fm)
    (hmd : fs.mdFile = some body)
    (hts : get_cached_modified_time fs = some fm.modifiedTime) :
    (download_doc env fs x false).writes = [] ∧
    (download_doc env fs x false).fs = fs := by
  have hm := pyCall_ok (extract_doc_id x) env.metaAttempts env.loginOk _ hmeta
  simp [download_doc, hm, hadc, hmd, hts]

/-- Witness for C10 at a concrete cached state matching the remote. -/
theorem C10_cache_hit_no_writes_witness :
    (download_doc
      ⟨true, true, fun _ => .ok ⟨"D2".toList, "t9".toList⟩, fun _ => .ok "x".toList⟩
      ⟨some "old".toList, some ⟨"D2".toList, some "t9".toList, "u".toList⟩, true⟩
      "idX".toList false).writes = [] := by
  have h := C10_cache_hit_no_writes
    ⟨true, true, fun _ => .ok ⟨"D2".toList, "t9".toList⟩, fun _ => .ok "x".toList⟩
    ⟨some "old".toList, some ⟨"D2".toList, some "t9".toList, "u".toList⟩, true⟩
    "idX".toList ⟨"D2".toList, "t9".toList⟩ "old".toList rfl rfl rfl rfl
  exact h.1

/-- C5: stale cache.  When the sidecar stores a timestamp different from
the fresh remote one (whether or not the body file exists) and the export
succeeds at once, `download_doc` with `force = false` performs exactly one
export call and overwrites both files, the new sidecar's `modifiedTime`
being the fresh remote timestamp. -/
theorem C5_stale_cache_refresh (env : Env) (fs : FS) (x : List Char) (fm : FileMeta)
    (raw t : List Char)
    (hadc : env.adcOk = true)
    (hmeta : env.metaAttempts 0 = .ok fm)
    (hexp : env.exportAttempts 0 = .ok raw)
    (hts : get_cached_modified_time fs = some t)
    (hne : t ≠ fm.modifiedTime) :
    (download_doc env fs x false).exportCalls = 1 ∧
    (download_doc env fs x false).fs.mdFile =
      some (pyStrip (imagePatternsSub (pyStrip raw))) ∧
    (download_doc env fs x false).fs.metaFile =
      some ⟨fm.name, some fm.modifiedTime, doc_url (extract_doc_id x)⟩ ∧
    (download_doc env fs x false).outcome = .ok (md_path (extract_doc_id x)) := by
  have hm := pyCall_ok (extract_doc_id x) env.metaAttempts env.loginOk _ hmeta
  have he := pyCall_ok (extract_doc_id x) env.exportAttempts env.loginOk _ hexp
  simp [download_doc, hm, he, hadc, hts, hne]

/-- Witness for C5 at a concrete stale cached state. -/
theorem C5_stale_cache_refresh_witness :
    (download_doc
      ⟨true, true, fun _ => .ok ⟨"D3".toList, "t2".toList⟩, fun _ => .ok "new body".toList⟩
      ⟨some "old".toList, some ⟨"D3".toList, some "t1".toList, "u".toList⟩, true⟩
      "idY".toList false).exportCalls = 1 ∧
    (download_doc
      ⟨true, true, fun _ => .ok ⟨"D3".toList, "t2".toList⟩, fun _ => .ok "new body".toList⟩
      ⟨some "old".toList, some ⟨"D3".toList, some "t1".toList, "u".toList⟩, true⟩
      "idY".toList false).fs.metaFile =
      some ⟨"D3".toList, some "t2".toList, doc_url "idY".toList⟩ := by
  have h := C5_stale_cache_refresh
    ⟨true, true, fun _ => .ok ⟨"D3".toList, "t2".toList⟩, fun _ => .ok "new body".toList⟩
    ⟨some "old".toList, some ⟨"D3".toList, some "t1".toList, "u".toList⟩, true⟩
    "idY".toList ⟨"D3".toList, "t2".toList⟩ "new body".toList "t1".toList
    rfl rfl rfl rfl (by decide)
  refine ⟨h.1, ?_⟩
  rw [h.2.2.1]
  have hid : extract_doc_id "idY".toList = "idY".toList := by decide
  rw [hid]

/-- C6: forced refresh.  With `force = true` and a successful metadata
fetch, `download_doc` invokes the export call at least once, whatever the
cache state and whatever the export outcome. -/
theorem C6_force_always_exports (env : Env) (fs : FS) (x : List Char) (fm : FileMeta)
    (hadc : env.adcOk = true)
    (hmeta : env.metaAttempts 0 = .ok fm) :
    1 ≤ (download_doc env fs x true).exportCalls := by
  have hm := pyCall_ok (extract_doc_id x) env.metaAttempts env.loginOk _ hmeta
  have hcalls := pyCall_calls_pos (extract_doc_id x) env.exportAttempts env.loginOk
  cases hres : (pyCall (extract_doc_id x) env.exportAttempts env.loginOk).res <;>
    simp [download_doc, hm, hadc, hres, hcalls]

/-- Witness for C6: a fully cached, up-to-date state still gets an export
when forced. -/
theorem C6_force_always_exports_witness :
    1 ≤ (download_doc
      ⟨true, true, fun _ => .ok ⟨"D4".toList, "t1".toList⟩, fun _ => .ok "b".toList⟩
      ⟨some "cached".toList, some ⟨"D4".toList, some "t1".toList, "u".toList⟩, true⟩
      "idZ".toList true).exportCalls :=
  C6_force_always_exports
    ⟨true, true, fun _ => .ok ⟨"D4".toList, "t1".toList⟩, fun _ => .ok "b".toList⟩
    ⟨some "cached".toList, some ⟨"D4".toList, some "t1".toList, "u".toList⟩, true⟩
    "idZ".toList ⟨"D4".toList, "t1".toList⟩ rfl rfl

/-- C8: on every export path (any run that is not a cache hit and whose
export succeeds), the filesystem writes happen in the order: create cache
directory, write the processed Markdown body, then write the sidecar; the
sidecar written immediately after the body records exactly the remote
timestamp the body was exported under, so no reachable state pairs a
written body with a sidecar recording a newer timestamp. -/
theorem C8_body_before_sidecar (env : Env) (fs : FS) (x : List Char) (force : Bool)
    (fm : FileMeta) (raw : List Char)
    (hadc : env.adcOk = true)
    (hmeta : env.metaAttempts 0 = .ok fm)
    (hexp : env.exportAttempts 0 = .ok raw)
    (hmiss : ¬(force = false ∧ fs.mdFile.isSome = true ∧
      get_cached_modified_time fs = some fm.modifiedTime)) :
    (download_doc env fs x force).writes =
      [.mkdirCache,
       .writeMd (pyStrip (imagePatternsSub (pyStrip raw))),
       .writeMeta ⟨fm.name, some fm.modifiedTime, doc_url (extract_doc_id x)⟩] ∧
    (download_doc env fs x force).fs.metaFile =
      some ⟨fm.name, some fm.modifiedTime, doc_url (extract_doc_id x)⟩ := by
  have hm := pyCall_ok (extract_doc_id x) env.metaAttempts env.loginOk _ hmeta
  have he := pyCall_ok (extract_doc_id x) env.exportAttempts env.loginOk _ hexp
  simp [download_doc, hm, he, hadc, hmiss]

/-- Witness for C8 on a first-time download (no cached body). -/
theorem C8_body_before_sidecar_witness :
    (download_doc
      ⟨true, true, fun _ => .ok ⟨"D5".toList, "t7".toList⟩, fun _ => .ok "raw".toList⟩
      ⟨none, none, false⟩ "idW".toList false).writes =
      [.mkdirCache,
       .writeMd (pyStrip (imagePatternsSub (pyStrip "raw".toList))),
       .writeMeta ⟨"D5".toList, some "t7".toList, doc_url (extract_doc_id "idW".toList)⟩] :=
  (C8_body_before_sidecar
    ⟨true, true, fun _ => .ok ⟨"D5".toList, "t7".toList⟩, fun _ => .ok "raw".toList⟩
    ⟨none, none, false⟩ "idW".toList false ⟨"D5".toList, "t7".toList⟩ "raw".toList
    rfl rfl rfl (by decide)).1

/-- C3: identifier extraction.  For a canonical URL
`https://docs.google.com/document/d/<ID>/...` whose identifier contains no
slash, `extract_doc_id` returns exactly `<ID>`; for a bare string without
the URL shape — one not containing the `"docs.google.com"` host marker, or
one not containing a `"/d/"` segment — it is the identity. -/
theorem C3_extract_doc_id (idc rest s : List Char) :
    (('/' ∉ idc) →
      extract_doc_id
        ("https://docs.google.com/document/d/".toList ++ (idc ++ '/' :: rest)) = idc) ∧
    (hasSubstr s dgcChars = false → extract_doc_id s = s) ∧
    (hasSubstr s dTok = false → extract_doc_id s = s) := by
  refine ⟨?_, ?_, ?_⟩
  · intro hid
    have hS : "https://docs.google.com/document/d/".toList ++ (idc ++ '/' :: rest) =
        urlHead ++ (dTok ++ (idc ++ '/' :: rest)) := by
      have h1 : "https://docs.google.com/document/d/".toList = urlHead ++ dTok := by
        decide
      rw [h1, List.append_assoc]
    rw [hS]
    have hhs : hasSubstr (urlHead ++ (dTok ++ (idc ++ '/' :: rest))) dgcChars = true := by
      have h0 : urlHead ++ (dTok ++ (idc ++ '/' :: rest)) =
          "https://".toList ++
            (dgcChars ++ ("/document".toList ++ (dTok ++ (idc ++ '/' :: rest)))) := by
        have h1 : urlHead = "https://".toList ++ (dgcChars ++ "/document".toList) := by
          decide
        rw [h1]
        simp [List.append_assoc]
      rw [h0]
      exact hasSubstr_append _ _ _
    have hx0 : ∀ i, i < urlHead.length →
        beginsWith dTok (List.drop i urlHead ++ dTok) = false := by decide
    have hsplit : pySplit dTok (urlHead ++ (dTok ++ (idc ++ '/' :: rest))) =
        urlHead :: pySplit dTok (idc ++ '/' :: rest) := by
      unfold pySplit
      rw [pySplitGo_append dTok (by decide) urlHead _ _ (le_refl _) hx0]
      congr 1
      refine pySplitGo_fuel dTok (by decide) _ _ _ ?_ (le_refl _)
      have hu : urlHead.length = 32 := by decide
      have hd3 : dTok.length = 3 := by decide
      simp [List.length_append, hu, hd3]
    have hlen2 : (urlHead :: pySplit dTok (idc ++ '/' :: rest)).length > 1 := by
      cases hsp2 : pySplit dTok (idc ++ '/' :: rest) with
      | nil => exact absurd hsp2 (pySplit_ne_nil _ _)
      | cons a b => simp
    have hget : (urlHead :: pySplit dTok (idc ++ '/' :: rest)).getD 1 [] =
        (pySplit dTok (idc ++ '/' :: rest)).headD [] := by
      cases hsp2 : pySplit dTok (idc ++ '/' :: rest) with
      | nil => exact absurd hsp2 (pySplit_ne_nil _ _)
      | cons a b => rfl
    have hd1 : dTok = '/' :: "d/".toList := by decide
    have hbs : ∀ i, i < idc.length →
        beginsWith dTok (List.drop i (idc ++ '/' :: rest)) = false := by
      intro i hi
      rw [hd1]
      exact beginsWith_slash_drop idc ('/' :: rest) hid _ i hi
    have hF : (idc ++ '/' :: rest).length - idc.length = ('/' :: rest).length := by
      simp [List.length_append]
    have hhead : (pySplit dTok (idc ++ '/' :: rest)).headD [] =
        idc ++ (pySplit dTok ('/' :: rest)).headD [] := by
      unfold pySplit
      rw [pySplitGo_head_cons dTok idc ('/' :: rest) _ (le_refl _) hbs, hF]
      simp
    have hps : pySplit dTok ('/' :: rest) =
        pySplitGo dTok (rest.length + 1) ('/' :: rest) := rfl
    unfold extract_doc_id
    rw [if_pos hhs, hsplit]
    rw [if_pos hlen2]
    rw [hget, hhead]
    rcases pySplitGo_head_start dTok rest.length '/' rest with hh | ⟨l, hh⟩
    · rw [hps, hh, List.append_nil]
      have hsl : slashTok = '/' :: [] := by decide
      have hno : pySplit slashTok idc = [idc] := by
        unfold pySplit
        refine pySplitGo_no_match slashTok idc _ (le_refl _) ?_
        intro i hi
        rw [hsl]
        have h1 := beginsWith_slash_drop idc [] hid [] i hi
        simpa using h1
      rw [hno]
      rfl
    · rw [hps, hh]
      have hsl : slashTok = '/' :: [] := by decide
      have hx1 : ∀ i, i < idc.length →
          beginsWith slashTok (List.drop i idc ++ slashTok) = false := by
        intro i hi
        rw [hsl]
        exact beginsWith_slash_drop_append idc hid [] ('/' :: []) i hi
      have happ : idc ++ '/' :: l = idc ++ (slashTok ++ l) := by
        rw [hsl]
        rfl
      rw [happ]
      have hsp3 : pySplit slashTok (idc ++ (slashTok ++ l)) =
          idc :: pySplit slashTok l := by
        unfold pySplit
        rw [pySplitGo_append slashTok (by decide) idc _ _ (le_refl _) hx1]
        congr 1
        refine pySplitGo_fuel slashTok (by decide) _ _ _ ?_ (le_refl _)
        have hs1 : slashTok.length = 1 := by decide
        simp [List.length_append, hs1]
      rw [hsp3]
      rfl
  · intro hg
    simp [extract_doc_id, hg]
  · intro hd
    by_cases hg : hasSubstr s dgcChars = true
    · have hsp : pySplit dTok s = [s] := by
        unfold pySplit
        exact pySplitGo_no_match dTok s _ (le_refl _)
          (fun i _ => hasSubstr_eq_false_drop s dTok hd i)
      simp [extract_doc_id, hg, hsp]
    · simp [extract_doc_id, hg]

/-- Witness for C3: the identifier `abc123` is extracted from its canonical
URL, and a bare identifier passes through unchanged. -/
theorem C3_extract_doc_id_witness :
    ('/' ∉ "abc123".toList) ∧
    extract_doc_id ("https://docs.google.com/document/d/".toList ++
      ("abc123".toList ++ '/' :: "edit".toList)) = "abc123".toList ∧
    extract_doc_id "mydoc".toList = "mydoc".toList := by
  have h := C3_extract_doc_id "abc123".toList "edit".toList "mydoc".toList
  exact ⟨by decide, h.1 (by decide), h.2.1 (by decide)⟩

/-- C9: an input that contains `"docs.google.com"` but no `"/d/"` segment
splits into a single part, so `extract_doc_id` falls through and returns
the input unchanged. -/
theorem C9_host_without_d (s : List Char)
    (hg : hasSubstr s dgcChars = true) (hd : hasSubstr s dTok = false) :
    extract_doc_id s = s := by
  have hsp : pySplit dTok s = [s] := by
    unfold pySplit
    exact pySplitGo_no_match dTok s _ (le_refl _)
      (fun i _ => hasSubstr_eq_false_drop s dTok hd i)
  simp [extract_doc_id, hg, hsp]

/-- Witness for C9 at the concrete input `"docs.google.com"` itself. -/
theorem C9_host_without_d_witness :
    extract_doc_id "docs.google.com".toList = "docs.google.com".toList :=
  C9_host_without_d "docs.google.com".toList (by decide) (by decide)

end GdocDl
